import Mathlib

/-!
Shallow embedding of the command-ordering core of the `shatter` repository
(`void_gpu`): the `CommandListIndex` generator (UUID version 6 layout), the
`BTreeMap`-backed command-buffer ledger of `Gpu` with `submit_cmds` and
`present`, the failing surface-acquisition path of `RenderContext::render`,
and the `RenderCtx` draw-state accumulator with its composite draw helpers.

Machine integers are embedded as `Nat` with explicit `% 2 ^ w` masks where
the source masks bits.  Opaque backend handles (`wgpu::Buffer`,
`wgpu::BindGroup`, `wgpu::CommandBuffer`, `wgpu::RenderPipeline`) are
embedded as `Nat` handles; their identity is all the analyzed code observes.
-/

/-! ### CommandListIndex (src/void_gpu/src/api/mod.rs)

`CommandListIndex` is a newtype over `Uuid` with derived `Ord`;
`CommandListIndex::new(node_id)` is `Uuid::now_v6(node_id)`.  The `uuid`
crate builds a version-6 UUID from a 60-bit count of 100ns ticks, a 14-bit
counter taken from a shared monotonically increasing context, and the 48-bit
node id.  A `Uuid` compares as its 16 bytes in big-endian order, i.e. as the
number below.  The wall-clock reading of one call is a `(ticks, counter)`
pair; a call that completes before another begins observes a lexicographically
smaller pair (equal 100ns ticks are tie-broken by the shared counter). -/

/-- Field layout of `Builder::from_sorted_rfc4122_timestamp` in the `uuid`
crate, as one natural number (the big-endian value of the 16 bytes): the top
32 bits of the tick count, then the middle 16 bits, then the version nibble
`6` over the low 12 bits, then the variant bits `10` over the 14-bit counter,
then the 48-bit node id. -/
def uuidV6 (ticks counter node_id : Nat) : Nat :=
  (ticks / 2 ^ 28 % 2 ^ 32) * 2 ^ 96
    + (ticks / 2 ^ 12 % 2 ^ 16) * 2 ^ 80
    + (6 * 2 ^ 12 + ticks % 2 ^ 12) * 2 ^ 64
    + 2 ^ 63
    + (counter / 2 ^ 8 % 2 ^ 6) * 2 ^ 56
    + counter % 2 ^ 8 * 2 ^ 48
    + node_id % 2 ^ 48

/-- `CommandListIndex` values are compared through the derived `Ord` on the
wrapped `Uuid`, which is the numeric order of `uuidV6`. -/
abbrev CommandListIndex := Nat

/-- `CommandListIndex::new(node_id)`, with the clock and shared-context
readings of the call made explicit: the 100ns tick count and the 14-bit
counter observed by `Uuid::now_v6`. -/
def CommandListIndex.new (ticks counter : Nat) (node_id : Nat) : CommandListIndex :=
  uuidV6 ticks counter node_id

/-- The v6 layout is strictly monotone in the `(ticks, counter)` pair,
lexicographically, for a fixed node id (tick counts below the 60-bit field
width, counters below the 14-bit field width). -/
lemma uuidV6_lt_of_lex {node t1 c1 t2 c2 : Nat}
    (ht1 : t1 < 2 ^ 60) (ht2 : t2 < 2 ^ 60) (hc1 : c1 < 2 ^ 14) (hc2 : c2 < 2 ^ 14)
    (h : t1 < t2 ∨ (t1 = t2 ∧ c1 < c2)) :
    uuidV6 t1 c1 node < uuidV6 t2 c2 node := by
  unfold uuidV6
  rcases h with h | ⟨rfl, h⟩ <;> omega

/-- For a fixed node id the v6 layout is injective in the
`(ticks, counter)` pair (within the field widths). -/
lemma uuidV6_inj {node t1 c1 t2 c2 : Nat}
    (ht1 : t1 < 2 ^ 60) (ht2 : t2 < 2 ^ 60) (hc1 : c1 < 2 ^ 14) (hc2 : c2 < 2 ^ 14)
    (h : uuidV6 t1 c1 node = uuidV6 t2 c2 node) : t1 = t2 ∧ c1 = c2 := by
  unfold uuidV6 at h
  omega

/-! ### The command-buffer ledger (src/void_gpu/src/api/wgpu_api/api.rs)

`Gpu` owns `commands : BTreeMap<CommandListIndex, wgpu::CommandBuffer>`.
A `BTreeMap` is embedded as its entry list in ascending key order
(`ledgerSorted`); `insert` (and hence `extend`) places the new entry at its
ordered position, replacing an entry with an equal key. -/

/-- `BTreeMap::insert` on the ascending entry list: place `(k, v)` at its
ordered position, replacing the entry whose key equals `k` if present. -/
def btInsert (k v : Nat) : List (Nat × Nat) → List (Nat × Nat)
  | [] => [(k, v)]
  | (k1, v1) :: t =>
    if k < k1 then (k, v) :: (k1, v1) :: t
    else if k = k1 then (k, v) :: t
    else (k1, v1) :: btInsert k v t

/-- The `BTreeMap` representation invariant: entries are in strictly
ascending key order. -/
def ledgerSorted (l : List (Nat × Nat)) : Prop :=
  List.Pairwise (fun a b => a.1 < b.1) l

/-- `BTreeMap::extend`: insert the given entries left to right. -/
def insertAll (ps : List (Nat × Nat)) (m : List (Nat × Nat)) : List (Nat × Nat) :=
  ps.foldl (fun acc kv => btInsert kv.1 kv.2 acc) m

/-- The `Gpu` facade: the node id used to generate indices, and the
`commands` ledger. -/
structure Gpu where
  node_id : Nat
  commands : List (Nat × Nat)
  deriving DecidableEq, Repr

/-- `Gpu::submit_cmds(cmds)`: extend the ledger with
`(CommandListIndex::new(node_id), cmd)` for each buffer.  The clock/counter
reading observed by each `CommandListIndex::new` call is made explicit as
the `stamps` list (one `(ticks, counter)` pair per buffer, in call order). -/
def Gpu.submit_cmds (g : Gpu) (stamps : List (Nat × Nat)) (cmds : List Nat) : Gpu :=
  { g with
    commands :=
      insertAll
        (List.zipWith (fun s c => (CommandListIndex.new s.1 s.2 g.node_id, c)) stamps cmds)
        g.commands }

/-- `Gpu::present`: `mem::take` the ledger, iterate it (ascending key
order), and hand the values to `queue.submit` as one batch.  The returned
list is the single batch given to the queue. -/
def Gpu.present (g : Gpu) : Gpu × List Nat :=
  ({ g with commands := [] }, g.commands.map Prod.snd)

/-- `wgpu::SurfaceError`: the acquisition failures of
`surface.get_current_texture()`. -/
inductive SurfaceErr where
  | Timeout
  | Outdated
  | Lost
  | OutOfMemory
  deriving DecidableEq, Repr

/-- `RenderError` (api.rs): the one variant wraps a `wgpu::SurfaceError`
via `#[from]`, which is what the `?` on `get_current_texture` produces. -/
inductive RenderError where
  | SurfaceError (e : SurfaceErr)
  deriving DecidableEq, Repr

/-- `RenderContext::render` (api.rs): acquire the surface texture first —
on failure the `?` operator returns `RenderError::SurfaceError` before the
`Gpu` is touched — then record the pass, `submit_cmds` the one finished
command buffer, and `present`.  The acquisition outcome is the `acquire`
argument; the pair returned is the call's result together with the `Gpu`
state after the call. -/
def RenderContext.render (acquire : Except SurfaceErr Unit) (stamp : Nat × Nat)
    (buf : Nat) (g : Gpu) : Except RenderError Unit × Gpu :=
  match acquire with
  | Except.error e => (Except.error (RenderError.SurfaceError e), g)
  | Except.ok _ => (Except.ok (), ((g.submit_cmds [stamp] [buf]).present).1)

/-! ### The render-context state machine
(src/void_gpu/src/api/wgpu_api/api/render_ctx.rs)

`RenderCtx` accumulates draw state; each field mirrors the Rust struct.
`Range<u32>` is embedded as `RRange`; `DynamicOffset` slices are lists (the
code only ever pushes the empty slice). -/

/-- `std::ops::Range<u32>`. -/
structure RRange where
  start : Nat
  stop : Nat
  deriving DecidableEq, Repr

/-- The pending draw command recorded by `RenderCtx::draw`. -/
structure DrawCmd where
  indices : RRange
  base_vertex : Int
  instances : RRange
  deriving DecidableEq, Repr

/-- The `RenderCtx` struct: pushed bind groups (slot, group, offsets),
optional (slot, vertex buffer), optional index buffer, optional pipeline,
optional pending draw command. -/
structure RenderCtx where
  bind_groups : List (Nat × Nat × List Nat) := []
  vertex_buffer : Option (Nat × Nat) := none
  index_buffer : Option Nat := none
  pipeline : Option Nat := none
  draw_cmd : Option DrawCmd := none
  deriving DecidableEq, Repr

/-- `IContext::new` for `RenderCtx`: `Self::default()` — everything empty. -/
def RenderCtx.new : RenderCtx := {}

/-- `RenderCtx::set_pipeline`. -/
def RenderCtx.set_pipeline (ctx : RenderCtx) (p : Nat) : RenderCtx :=
  { ctx with pipeline := some p }

/-- `RenderCtx::set_bind_group`: pushes `(slot, group, &[])` onto the
`bind_groups` vector. -/
def RenderCtx.set_bind_group (ctx : RenderCtx) (slot group : Nat) : RenderCtx :=
  { ctx with bind_groups := ctx.bind_groups ++ [(slot, group, [])] }

/-- `RenderCtx::draw`: stores the arguments as the pending draw command. -/
def RenderCtx.draw (ctx : RenderCtx) (indices : RRange) (base_vertex : Int)
    (instances : RRange) : RenderCtx :=
  { ctx with draw_cmd := some ⟨indices, base_vertex, instances⟩ }

/-- `RenderCtx::set_index_buffer`: the slot argument is named `_slot` in the
source and unused. -/
def RenderCtx.set_index_buffer (ctx : RenderCtx) (_slot : Nat) (buffer : Nat) : RenderCtx :=
  { ctx with index_buffer := some buffer }

/-- `RenderCtx::set_vertex_buffer`: stores `(slot, buffer)`. -/
def RenderCtx.set_vertex_buffer (ctx : RenderCtx) (slot : Nat) (buffer : Nat) : RenderCtx :=
  { ctx with vertex_buffer := some (slot, buffer) }

/-- Modelled from the spec: the finished-output type (`CtxOut`, whose
definition lies outside the analyzed sources) is a closed variant over the
render and compute outputs; the render variant wraps the accumulated
`RenderCtx` state. -/
inductive CtxOut where
  | Render (ctx : RenderCtx)
  | Compute
  deriving DecidableEq, Repr

/-- `IContext::finish` for `RenderCtx`: `CtxOut::Render(self)`. -/
def RenderCtx.finish (ctx : RenderCtx) : CtxOut := CtxOut.Render ctx

/-- Modelled from the spec: a mesh (the `model` module is outside the
analyzed sources) carries a vertex buffer, an index buffer, an element
count, and the index of its material in the owning model. -/
structure Mesh where
  vertex_buffer : Nat
  index_buffer : Nat
  num_elements : Nat
  material : Nat
  deriving DecidableEq, Repr

/-- Modelled from the spec: a material carries its bind group. -/
structure Material where
  bind_group : Nat
  deriving DecidableEq, Repr

instance : Inhabited Material := ⟨⟨0⟩⟩

/-- Modelled from the spec: a model is its meshes in storage order together
with its materials. -/
structure Model where
  meshes : List Mesh
  materials : List Material
  deriving DecidableEq, Repr

/-- `DrawModel::draw_mesh_instanced` for `RenderCtx`: set vertex buffer at
slot 0, index buffer (slot argument 1, ignored), bind group 0 to the
material's bind group, bind group 1 to the camera bind group, then
`draw(0..mesh.num_elements, 0, instances)`. -/
def RenderCtx.draw_mesh_instanced (ctx : RenderCtx) (mesh : Mesh) (material : Material)
    (instances : RRange) (camera_bind_group : Nat) : RenderCtx :=
  ((((ctx.set_vertex_buffer 0 mesh.vertex_buffer).set_index_buffer
        1 mesh.index_buffer).set_bind_group
      0 material.bind_group).set_bind_group
    1 camera_bind_group).draw ⟨0, mesh.num_elements⟩ 0 instances

/-- `DrawModel::draw_model_instanced` for `RenderCtx`: for each mesh of the
model in storage order, one mesh draw with `model.materials[mesh.material]`.
The Rust indexing panics out of bounds; it is embedded with `getD` and the
claims about it carry the in-bounds precondition. -/
def RenderCtx.draw_model_instanced (ctx : RenderCtx) (model : Model) (instances : RRange)
    (camera_bind_group : Nat) : RenderCtx :=
  model.meshes.foldl
    (fun c mesh =>
      c.draw_mesh_instanced mesh (model.materials.getD mesh.material default)
        instances camera_bind_group)
    ctx

/-- `DrawModel::draw_mesh` for `RenderCtx`: instanced draw over `0..1`. -/
def RenderCtx.draw_mesh (ctx : RenderCtx) (mesh : Mesh) (material : Material)
    (camera_bind_group : Nat) : RenderCtx :=
  ctx.draw_mesh_instanced mesh material ⟨0, 1⟩ camera_bind_group

/-- `DrawModel::draw_model` for `RenderCtx`: instanced draw over `0..1`. -/
def RenderCtx.draw_model (ctx : RenderCtx) (model : Model)
    (camera_bind_group : Nat) : RenderCtx :=
  ctx.draw_model_instanced model ⟨0, 1⟩ camera_bind_group

/-! ### Shared lemmas -/

/-- Members of `btInsert k v l` are the new entry or old entries. -/
lemma mem_btInsert {k v : Nat} {x : Nat × Nat} :
    ∀ (l : List (Nat × Nat)), x ∈ btInsert k v l → x = (k, v) ∨ x ∈ l := by
  intro l
  induction l with
  | nil =>
    intro h
    simp only [btInsert, List.mem_singleton] at h
    exact Or.inl h
  | cons p t ih =>
    obtain ⟨k1, v1⟩ := p
    intro h
    simp only [btInsert] at h
    split at h
    · rcases List.mem_cons.1 h with h | h
      · exact Or.inl h
      · exact Or.inr h
    · split at h
      · rcases List.mem_cons.1 h with h | h
        · exact Or.inl h
        · exact Or.inr (List.mem_cons_of_mem _ h)
      · rcases List.mem_cons.1 h with h | h
        · exact Or.inr (h ▸ List.mem_cons_self _ _)
        · rcases ih h with h | h
          · exact Or.inl h
          · exact Or.inr (List.mem_cons_of_mem _ h)

/-- `btInsert` preserves the ascending-key invariant. -/
lemma btInsert_sorted {k v : Nat} :
    ∀ {l : List (Nat × Nat)}, ledgerSorted l → ledgerSorted (btInsert k v l) := by
  intro l
  induction l with
  | nil =>
    intro _
    simp [btInsert, ledgerSorted]
  | cons p t ih =>
    obtain ⟨k1, v1⟩ := p
    intro hs
    simp only [ledgerSorted, List.pairwise_cons] at hs
    obtain ⟨hhead, htail⟩ := hs
    simp only [btInsert]
    split
    · rename_i hlt
      simp only [ledgerSorted, List.pairwise_cons]
      refine ⟨fun x hx => ?_, hhead, htail⟩
      rcases List.mem_cons.1 hx with rfl | hx
      · exact hlt
      · exact lt_trans hlt (hhead x hx)
    · split
      · rename_i hnlt heq
        simp only [ledgerSorted, List.pairwise_cons]
        exact ⟨fun x hx => heq ▸ hhead x hx, htail⟩
      · rename_i hnlt hne
        have hgt : k1 < k := by omega
        simp only [ledgerSorted, List.pairwise_cons]
        refine ⟨fun x hx => ?_, ih htail⟩
        rcases mem_btInsert t hx with rfl | hx
        · exact hgt
        · exact hhead x hx

/-- Inserting a key not already present is, up to permutation, consing the
new entry. -/
lemma btInsert_perm {k v : Nat} :
    ∀ {l : List (Nat × Nat)}, k ∉ l.map Prod.fst → (btInsert k v l).Perm ((k, v) :: l) := by
  intro l
  induction l with
  | nil =>
    intro _
    exact List.Perm.refl _
  | cons p t ih =>
    obtain ⟨k1, v1⟩ := p
    intro hk
    simp only [List.map_cons, List.mem_cons] at hk
    push_neg at hk
    obtain ⟨hk1, hkt⟩ := hk
    by_cases hlt : k < k1
    · simp only [btInsert, if_pos hlt]
      exact List.Perm.refl _
    · simp only [btInsert, if_neg hlt, if_neg hk1]
      exact ((ih hkt).cons _).trans (List.Perm.swap _ _ _)

/-- `insertAll` on a cons unfolds to inserting the head first. -/
lemma insertAll_cons (a : Nat × Nat) (ps m : List (Nat × Nat)) :
    insertAll (a :: ps) m = insertAll ps (btInsert a.1 a.2 m) := rfl

/-- `insertAll` preserves the ascending-key invariant. -/
lemma insertAll_sorted : ∀ (ps m : List (Nat × Nat)),
    ledgerSorted m → ledgerSorted (insertAll ps m)
  | [], _, h => h
  | _ :: ps, _, h => insertAll_sorted ps _ (btInsert_sorted h)

/-- Extending a map with entries whose keys are mutually distinct and absent
from the map is, up to permutation, appending them. -/
lemma insertAll_perm : ∀ (ps m : List (Nat × Nat)),
    (ps.map Prod.fst).Nodup → (∀ p ∈ ps, p.1 ∉ m.map Prod.fst) →
    (insertAll ps m).Perm (m ++ ps) := by
  intro ps
  induction ps with
  | nil =>
    intro m _ _
    simp [insertAll]
  | cons p t ih =>
    intro m hnd hfresh
    obtain ⟨a, b⟩ := p
    simp only [List.map_cons, List.nodup_cons] at hnd
    obtain ⟨hat, hndt⟩ := hnd
    rw [insertAll_cons]
    have ham : a ∉ m.map Prod.fst := by
      simpa using hfresh (a, b) (List.mem_cons_self _ _)
    have hins : (btInsert a b m).Perm ((a, b) :: m) := btInsert_perm ham
    have hfresh2 : ∀ q ∈ t, q.1 ∉ (btInsert a b m).map Prod.fst := by
      intro q hq hmem
      have hkeys : ((btInsert a b m).map Prod.fst).Perm (a :: m.map Prod.fst) := by
        simpa using hins.map Prod.fst
      rcases List.mem_cons.1 (hkeys.mem_iff.1 hmem) with h | h
      · exact hat (h ▸ List.mem_map_of_mem Prod.fst hq)
      · exact hfresh q (List.mem_cons_of_mem _ hq) h
    have hmain := ih (btInsert a b m) hndt hfresh2
    refine hmain.trans ?_
    exact (hins.append_right t).trans List.perm_middle.symm

/-- Two ledgers with the ascending-key invariant that are permutations of
each other are equal. -/
lemma ledger_eq_of_perm_of_sorted {l1 l2 : List (Nat × Nat)} (hp : l1.Perm l2)
    (h1 : ledgerSorted l1) (h2 : ledgerSorted l2) : l1 = l2 := by
  haveI : IsAntisymm (Nat × Nat) (fun a b => a.1 < b.1) :=
    ⟨fun a b hab hba => absurd hab (by omega)⟩
  exact List.eq_of_perm_of_sorted hp h1 h2

/-- Keys of the zipped (index, buffer) pairs, when the two lists have equal
length. -/
lemma zipWith_pairs_map_fst (f : Nat × Nat → Nat) :
    ∀ (stamps : List (Nat × Nat)) (cmds : List Nat), stamps.length = cmds.length →
      (List.zipWith (fun s c => (f s, c)) stamps cmds).map Prod.fst = stamps.map f
  | [], [], _ => rfl
  | [], _ :: _, h => by simp at h
  | _ :: _, [], h => by simp at h
  | s :: ss, c :: cs, h => by
    simp only [List.zipWith_cons_cons, List.map_cons]
    exact congrArg (List.cons (f s)) (zipWith_pairs_map_fst f ss cs (by simpa using h))

/-- One mesh draw, written out as a record update: vertex buffer at slot 0,
index buffer, pushed bind groups for slots 0 (material) and 1 (camera), and
the pending draw over the mesh's element range. -/
lemma draw_mesh_instanced_eq (ctx : RenderCtx) (mesh : Mesh) (material : Material)
    (instances : RRange) (cam : Nat) :
    ctx.draw_mesh_instanced mesh material instances cam =
      { ctx with
        vertex_buffer := some (0, mesh.vertex_buffer),
        index_buffer := some mesh.index_buffer,
        bind_groups := ctx.bind_groups ++ [(0, material.bind_group, []), (1, cam, [])],
        draw_cmd := some ⟨⟨0, mesh.num_elements⟩, 0, instances⟩ } := by
  simp [RenderCtx.draw_mesh_instanced, RenderCtx.set_vertex_buffer, RenderCtx.set_index_buffer,
    RenderCtx.set_bind_group, RenderCtx.draw]

/-! ### Claims -/

/-- Claim C1: for one node identity, `CommandListIndex::new` is strictly
increasing across calls ordered by real time — a call that completes before
another begins observes a lexicographically smaller (100ns tick, shared
monotonic counter) reading, within the 60-bit tick and 14-bit counter field
widths — and under the type's derived total order the earlier result is
strictly smaller; in particular no two such calls on the same node identity
produce equal indices. -/
theorem commandListIndex_new_strictly_increasing (node t1 c1 t2 c2 : Nat)
    (ht1 : t1 < 2 ^ 60) (ht2 : t2 < 2 ^ 60) (hc1 : c1 < 2 ^ 14) (hc2 : c2 < 2 ^ 14)
    (horder : t1 < t2 ∨ (t1 = t2 ∧ c1 < c2)) :
    CommandListIndex.new t1 c1 node < CommandListIndex.new t2 c2 node ∧
      CommandListIndex.new t1 c1 node ≠ CommandListIndex.new t2 c2 node := by
  have h := @uuidV6_lt_of_lex node t1 c1 t2 c2 ht1 ht2 hc1 hc2 horder
  exact ⟨h, Nat.ne_of_lt h⟩

/-- Witness for C1: two calls in the same 100ns tick, tie-broken by the
shared counter. -/
theorem commandListIndex_new_strictly_increasing_witness :
    CommandListIndex.new 5 3 9 < CommandListIndex.new 5 4 9 ∧
      CommandListIndex.new 5 3 9 ≠ CommandListIndex.new 5 4 9 :=
  commandListIndex_new_strictly_increasing 9 5 3 5 4 (by norm_num) (by norm_num)
    (by norm_num) (by norm_num) (Or.inr ⟨rfl, by norm_num⟩)

/-- Claim C2: a ledger built by inserting any (index, buffer) pairs with
distinct indices, in any order, satisfies the ascending-key invariant and
holds exactly the inserted pairs; `present` hands the queue that ledger's
buffers as one batch in that strictly ascending index order, and the
resulting ledger is the same for every insertion order. -/
theorem present_submits_in_ascending_order (nid : Nat) (l : List (Nat × Nat))
    (hnd : (l.map Prod.fst).Nodup) :
    ledgerSorted (insertAll l []) ∧
      (insertAll l []).Perm l ∧
      (Gpu.present ⟨nid, insertAll l []⟩).2 = (insertAll l []).map Prod.snd ∧
      ∀ l2, l.Perm l2 → insertAll l2 [] = insertAll l [] := by
  have hsorted := insertAll_sorted l [] List.Pairwise.nil
  have hperm : (insertAll l []).Perm l := by
    simpa using insertAll_perm l [] hnd (by simp)
  refine ⟨hsorted, hperm, rfl, ?_⟩
  intro l2 hl2
  have hnd2 : (l2.map Prod.fst).Nodup := ((hl2.map Prod.fst).nodup_iff).1 hnd
  have hsorted2 := insertAll_sorted l2 [] List.Pairwise.nil
  have hperm2 : (insertAll l2 []).Perm l2 := by
    simpa using insertAll_perm l2 [] hnd2 (by simp)
  exact ledger_eq_of_perm_of_sorted (hperm2.trans (hl2.symm.trans hperm.symm)) hsorted2 hsorted

/-- Witness for C2: three buffers inserted with out-of-order indices. -/
theorem present_submits_in_ascending_order_witness :
    ledgerSorted (insertAll [(3, 30), (1, 10), (2, 20)] []) ∧
      (insertAll [(3, 30), (1, 10), (2, 20)] []).Perm [(3, 30), (1, 10), (2, 20)] ∧
      (Gpu.present ⟨7, insertAll [(3, 30), (1, 10), (2, 20)] []⟩).2 =
        (insertAll [(3, 30), (1, 10), (2, 20)] []).map Prod.snd ∧
      ∀ l2, List.Perm [(3, 30), (1, 10), (2, 20)] l2 →
        insertAll l2 [] = insertAll [(3, 30), (1, 10), (2, 20)] [] :=
  present_submits_in_ascending_order 7 [(3, 30), (1, 10), (2, 20)] (by decide)

/-- Claim C3: `present` takes the whole ledger: the one batch handed to the
queue is exactly the ledger's value column (each entry contributes exactly
one buffer, in ledger order), and the ledger is empty immediately after. -/
theorem present_drains_ledger (g : Gpu) :
    g.present.1.commands = [] ∧ g.present.2 = g.commands.map Prod.snd :=
  ⟨rfl, rfl⟩

/-- Claim C4: when surface acquisition fails in the render/present path,
the call returns the typed `RenderError::SurfaceError` and the `Gpu` state
— in particular the ledger of finished command buffers — is exactly the
state before the call. -/
theorem render_surface_failure_leaves_ledger (e : SurfaceErr) (stamp : Nat × Nat)
    (buf : Nat) (g : Gpu) :
    RenderContext.render (Except.error e) stamp buf g
      = (Except.error (RenderError.SurfaceError e), g) := rfl

/-- Claim C5: `submit_cmds` over `n` buffers generates one fresh index per
buffer and inserts the (index, buffer) pairs: when the generator readings
are strictly increasing (C1's premise for a sequence of calls) and the
generated indices do not already occur in the ledger, the ledger grows by
exactly `n` entries, keeps the ascending-key (collision-free) invariant,
and afterwards holds exactly the old entries plus the new pairs; the
operation is total, so insertion cannot fail. -/
theorem submit_cmds_grows_by_n (g : Gpu) (stamps : List (Nat × Nat)) (cmds : List Nat)
    (hlen : stamps.length = cmds.length)
    (hmono : List.Pairwise (fun s1 s2 => s1.1 < s2.1 ∨ (s1.1 = s2.1 ∧ s1.2 < s2.2)) stamps)
    (hbound : ∀ s ∈ stamps, s.1 < 2 ^ 60 ∧ s.2 < 2 ^ 14)
    (hledger : ledgerSorted g.commands)
    (hfresh : ∀ s ∈ stamps, CommandListIndex.new s.1 s.2 g.node_id ∉ g.commands.map Prod.fst) :
    (g.submit_cmds stamps cmds).commands.length = g.commands.length + cmds.length ∧
      ledgerSorted (g.submit_cmds stamps cmds).commands ∧
      (g.submit_cmds stamps cmds).commands.Perm
        (g.commands ++
          List.zipWith (fun s c => (CommandListIndex.new s.1 s.2 g.node_id, c)) stamps cmds) := by
  have hkeys :
      (List.zipWith (fun s c => (CommandListIndex.new s.1 s.2 g.node_id, c)) stamps cmds).map
          Prod.fst
        = stamps.map (fun s => CommandListIndex.new s.1 s.2 g.node_id) :=
    zipWith_pairs_map_fst _ stamps cmds hlen
  have hnd :
      ((List.zipWith (fun s c => (CommandListIndex.new s.1 s.2 g.node_id, c)) stamps cmds).map
        Prod.fst).Nodup := by
    rw [hkeys]
    have hne : List.Pairwise
        (fun s1 s2 =>
          CommandListIndex.new s1.1 s1.2 g.node_id ≠ CommandListIndex.new s2.1 s2.2 g.node_id)
        stamps := by
      refine List.Pairwise.imp_of_mem ?_ hmono
      intro a b ha hb hr
      obtain ⟨ha1, ha2⟩ := hbound a ha
      obtain ⟨hb1, hb2⟩ := hbound b hb
      exact Nat.ne_of_lt (uuidV6_lt_of_lex ha1 hb1 ha2 hb2 hr)
    exact List.pairwise_map.2 hne
  have hfresh2 :
      ∀ p ∈ List.zipWith (fun s c => (CommandListIndex.new s.1 s.2 g.node_id, c)) stamps cmds,
        p.1 ∉ g.commands.map Prod.fst := by
    intro p hp
    have hp1 : p.1 ∈ stamps.map (fun s => CommandListIndex.new s.1 s.2 g.node_id) := by
      rw [← hkeys]
      exact List.mem_map_of_mem _ hp
    obtain ⟨s, hs, hsp⟩ := List.mem_map.1 hp1
    rw [← hsp]
    exact hfresh s hs
  have hperm := insertAll_perm _ g.commands hnd hfresh2
  refine ⟨?_, insertAll_sorted _ g.commands hledger, hperm⟩
  rw [show (g.submit_cmds stamps cmds).commands
      = insertAll (List.zipWith (fun s c => (CommandListIndex.new s.1 s.2 g.node_id, c))
          stamps cmds) g.commands from rfl,
    hperm.length_eq, List.length_append, List.length_zipWith]
  omega

/-- Witness for C5: two buffers submitted in one call on an empty ledger,
with same-tick counter-tie-broken readings. -/
theorem submit_cmds_grows_by_n_witness :
    ((Gpu.mk 9 []).submit_cmds [(1, 0), (1, 1)] [10, 20]).commands.length
        = (Gpu.mk 9 []).commands.length + [10, 20].length ∧
      ledgerSorted ((Gpu.mk 9 []).submit_cmds [(1, 0), (1, 1)] [10, 20]).commands ∧
      ((Gpu.mk 9 []).submit_cmds [(1, 0), (1, 1)] [10, 20]).commands.Perm
        ((Gpu.mk 9 []).commands ++
          List.zipWith (fun s c => (CommandListIndex.new s.1 s.2 (Gpu.mk 9 []).node_id, c))
            [(1, 0), (1, 1)] [10, 20]) :=
  submit_cmds_grows_by_n (Gpu.mk 9 []) [(1, 0), (1, 1)] [10, 20] rfl
    (by simp [List.pairwise_cons]) (by norm_num) List.Pairwise.nil (by simp)

/-- Claim C6: on a model with three meshes and three materials (each mesh's
material index in bounds), `draw_model_instanced` is exactly three mesh
draws, one per mesh in storage order, each drawing with that mesh's own
vertex/index buffers and with bind group 0 from the material selected by
that mesh's material index; the pushed bind-group trace records the slot-0
material of each of the three draws in order. -/
theorem draw_model_instanced_three_meshes (ctx : RenderCtx) (m0 m1 m2 : Mesh)
    (a0 a1 a2 : Material) (inst : RRange) (cam : Nat)
    (h0 : m0.material < 3) (h1 : m1.material < 3) (h2 : m2.material < 3) :
    ctx.draw_model_instanced ⟨[m0, m1, m2], [a0, a1, a2]⟩ inst cam =
        ((ctx.draw_mesh_instanced m0 ([a0, a1, a2].get ⟨m0.material, h0⟩) inst
              cam).draw_mesh_instanced m1 ([a0, a1, a2].get ⟨m1.material, h1⟩) inst
            cam).draw_mesh_instanced m2 ([a0, a1, a2].get ⟨m2.material, h2⟩) inst cam ∧
      (ctx.draw_model_instanced ⟨[m0, m1, m2], [a0, a1, a2]⟩ inst cam).bind_groups =
        ctx.bind_groups ++
          [(0, ([a0, a1, a2].get ⟨m0.material, h0⟩).bind_group, []), (1, cam, []),
            (0, ([a0, a1, a2].get ⟨m1.material, h1⟩).bind_group, []), (1, cam, []),
            (0, ([a0, a1, a2].get ⟨m2.material, h2⟩).bind_group, []), (1, cam, [])] := by
  have e0 : ([a0, a1, a2] : List Material).getD m0.material default
      = [a0, a1, a2].get ⟨m0.material, h0⟩ := List.getD_eq_get [a0, a1, a2] default h0
  have e1 : ([a0, a1, a2] : List Material).getD m1.material default
      = [a0, a1, a2].get ⟨m1.material, h1⟩ := List.getD_eq_get [a0, a1, a2] default h1
  have e2 : ([a0, a1, a2] : List Material).getD m2.material default
      = [a0, a1, a2].get ⟨m2.material, h2⟩ := List.getD_eq_get [a0, a1, a2] default h2
  constructor
  · rw [← e0, ← e1, ← e2]
    rfl
  · have hcomp : ctx.draw_model_instanced ⟨[m0, m1, m2], [a0, a1, a2]⟩ inst cam =
        ((ctx.draw_mesh_instanced m0 ([a0, a1, a2].getD m0.material default) inst
              cam).draw_mesh_instanced m1 ([a0, a1, a2].getD m1.material default) inst
            cam).draw_mesh_instanced m2 ([a0, a1, a2].getD m2.material default) inst cam := rfl
    rw [← e0, ← e1, ← e2, hcomp]
    simp [draw_mesh_instanced_eq, List.append_assoc]

/-- Witness for C6: the three mesh material indices are 2, 0, 1, so the
slot-0 bind groups come from the materials in that index order, not in
storage order. -/
theorem draw_model_instanced_three_meshes_witness :
    ((2 : Nat) < 3 ∧ (0 : Nat) < 3 ∧ (1 : Nat) < 3) ∧
      (RenderCtx.new.draw_model_instanced
          ⟨[⟨100, 101, 6, 2⟩, ⟨110, 111, 9, 0⟩, ⟨120, 121, 12, 1⟩],
            [⟨200⟩, ⟨201⟩, ⟨202⟩]⟩ ⟨0, 5⟩ 300).bind_groups =
        [(0, 202, []), (1, 300, []), (0, 200, []), (1, 300, []), (0, 201, []), (1, 300, [])] :=
  ⟨by decide,
    ((draw_model_instanced_three_meshes RenderCtx.new ⟨100, 101, 6, 2⟩ ⟨110, 111, 9, 0⟩
          ⟨120, 121, 12, 1⟩ ⟨200⟩ ⟨201⟩ ⟨202⟩ ⟨0, 5⟩ 300 (by decide) (by decide)
          (by decide)).2).trans (by decide)⟩

/-- Claim C7: `draw_mesh_instanced` performs exactly these updates: vertex
buffer slot 0 set to the mesh's vertex buffer, index buffer set to the
mesh's index buffer, bindings for slot 0 (the material's bind group) and
slot 1 (the camera's) pushed, and the pending draw recorded as
`draw(0..mesh.num_elements, 0, instances)`; every other field (the
pipeline) is untouched. -/
theorem draw_mesh_instanced_updates (ctx : RenderCtx) (mesh : Mesh) (material : Material)
    (instances : RRange) (cam : Nat) :
    ctx.draw_mesh_instanced mesh material instances cam =
      { ctx with
        vertex_buffer := some (0, mesh.vertex_buffer),
        index_buffer := some mesh.index_buffer,
        bind_groups := ctx.bind_groups ++ [(0, material.bind_group, []), (1, cam, [])],
        draw_cmd := some ⟨⟨0, mesh.num_elements⟩, 0, instances⟩ } :=
  draw_mesh_instanced_eq ctx mesh material instances cam

/-- Claim C8: `draw` leaves the context with exactly one pending draw
command equal to its arguments, overwriting whatever `draw_cmd` held
before (the field is an `Option`, so a context holds at most one pending
draw at all times); all other fields are untouched. -/
theorem draw_overwrites_pending (ctx : RenderCtx) (indices : RRange) (base_vertex : Int)
    (instances : RRange) :
    ctx.draw indices base_vertex instances
      = { ctx with draw_cmd := some ⟨indices, base_vertex, instances⟩ } := rfl

/-- Claim C9: a fresh context that receives `set_vertex_buffer`,
`set_index_buffer`, `set_bind_group(0, m)`, `set_bind_group(1, c)` and
`draw(0..6, 0, 0..1)` finishes into exactly one output unit — the render
variant — carrying those five pieces of accumulated state unchanged (and no
pipeline). -/
theorem finish_yields_accumulated_state (s si v ib m c : Nat) :
    (((((RenderCtx.new.set_vertex_buffer s v).set_index_buffer si ib).set_bind_group
          0 m).set_bind_group 1 c).draw ⟨0, 6⟩ 0 ⟨0, 1⟩).finish =
      CtxOut.Render
        { bind_groups := [(0, m, []), (1, c, [])],
          vertex_buffer := some (s, v),
          index_buffer := some ib,
          pipeline := none,
          draw_cmd := some ⟨⟨0, 6⟩, 0, ⟨0, 1⟩⟩ } := rfl

/-- Claim C10: the slot argument of `set_index_buffer` (named `_slot` in
the source) has no effect: any two slot values produce identical context
states. -/
theorem set_index_buffer_ignores_slot (ctx : RenderCtx) (s1 s2 b : Nat) :
    ctx.set_index_buffer s1 b = ctx.set_index_buffer s2 b := rfl
